import Mathlib

/-!
Verification development for `miro-svg-dl.py`, a bulk SVG downloader for
Miro boards.  The Python source is shallowly embedded: Python strings are
`List Char`, HTTP traffic is an explicit environment of response functions,
and the script's loops become structural recursions (with fuel where the
Python loop's termination depends on the environment).
-/

namespace MiroSvgDl

/-- Python strings are modelled as lists of characters. -/
abbrev Str := List Char

/-- The whitespace characters removed by Python's `str.strip()`
(ASCII subset, which covers the HTTP bodies at issue). -/
def pySpace (c : Char) : Bool :=
  c = ' ' || c = '\t' || c = '\n' || c = '\r' || c = '\x0b' || c = '\x0c'

/-- Remove the leading run of characters satisfying `p`
(Python `str.lstrip` with the character class `p`). -/
def lstripP (p : Char → Bool) (s : Str) : Str := s.dropWhile p

/-- Remove the trailing run of characters satisfying `p`
(Python `str.rstrip` with the character class `p`). -/
def rstripP (p : Char → Bool) : Str → Str
  | [] => []
  | c :: cs =>
    match rstripP p cs with
    | [] => if p c then [] else [c]
    | r => c :: r

/-- Remove leading and trailing runs of characters satisfying `p`
(Python `str.strip` with the character class `p`). -/
def stripP (p : Char → Bool) (s : Str) : Str := rstripP p (lstripP p s)

/-- Python `str.strip()` (no argument: whitespace). -/
def pyStrip (s : Str) : Str := stripP pySpace s

/-- Python `str.lower()` (ASCII case folding, which is what the
content-type values at issue use). -/
def pyLower (s : Str) : Str := s.map Char.toLower

/-- Python's substring test `needle in hay`. -/
def containsSub (needle : Str) : Str → Bool
  | [] => needle.isEmpty
  | c :: cs => needle.isPrefixOf (c :: cs) || containsSub needle cs

/-- Source `miro-svg-dl.py` line 140: the content-type header is looked up with
default `''` and lowercased before inspection. -/
def content_type_of (rawHeader : Str) : Str := pyLower rawHeader

/-- Source `miro-svg-dl.py` lines 146-151: the SVG-content heuristic
`'svg' in content_type or text.strip().startswith('<?xml') and
'svg' in text[:200] or text.strip().startswith('<svg') or
'image/svg' in content_type` (Python precedence: `and` binds
tighter than `or`). -/
def is_svg_content (content_type text : Str) : Bool :=
  containsSub "svg".data content_type
  || ("<?xml".data.isPrefixOf (pyStrip text) && containsSub "svg".data (text.take 200))
  || "<svg".data.isPrefixOf (pyStrip text)
  || containsSub "image/svg".data content_type

/-- Source `miro-svg-dl.py` line 153: a probed candidate is matched when the
status is 200 and the body/content-type heuristic fires; the content
type inspected is the lowercased header (line 140). -/
def classifyMatched (status : Nat) (rawContentType text : Str) : Bool :=
  status == 200 && is_svg_content (content_type_of rawContentType) text

/-! ### Generic lemmas about the string helpers -/

theorem lstripP_head (p : Char → Bool) :
    ∀ (s : Str) (a : Char) (t : Str), lstripP p s = a :: t → p a = false := by
  intro s
  induction s with
  | nil => intro a t h; simp [lstripP] at h
  | cons c cs ih =>
    intro a t h
    by_cases hc : p c = true
    · exact ih a t (by simpa [lstripP, List.dropWhile_cons, hc] using h)
    · simp only [lstripP, List.dropWhile_cons] at h
      rw [Bool.not_eq_true] at hc
      rw [hc] at h
      simp at h
      rw [← h.1]
      exact hc

theorem rstripP_prefix_iff (p : Char → Bool) :
    ∀ (s needle : Str), needle ≠ [] → (∀ c ∈ needle, p c = false) →
      (needle <+: rstripP p s ↔ needle <+: s) := by
  intro s
  induction s with
  | nil => intro needle _ _; simp [rstripP]
  | cons c cs ih =>
    intro needle hne hfree
    obtain ⟨n₀, ntl, rfl⟩ : ∃ a t, needle = a :: t := by
      cases needle with
      | nil => exact absurd rfl hne
      | cons a t => exact ⟨a, t, rfl⟩
    have hn₀ : p n₀ = false := hfree n₀ (List.mem_cons_self _ _)
    cases hr : rstripP p cs with
    | nil =>
      cases hc : p c with
      | true =>
        have hstep : rstripP p (c :: cs) = [] := by simp [rstripP, hr, hc]
        rw [hstep]
        constructor
        · intro h; exact absurd (List.prefix_nil.mp h) (by simp)
        · intro h
          rcases (List.cons_prefix_cons.mp h) with ⟨he, _⟩
          rw [he] at hn₀; rw [hn₀] at hc; cases hc
      | false =>
        have hstep : rstripP p (c :: cs) = [c] := by simp [rstripP, hr, hc]
        rw [hstep, List.cons_prefix_cons, List.cons_prefix_cons]
        constructor
        · rintro ⟨he, ht⟩
          exact ⟨he, (List.prefix_nil.mp ht) ▸ List.nil_prefix⟩
        · rintro ⟨he, ht⟩
          refine ⟨he, ?_⟩
          cases ntl with
          | nil => exact List.nil_prefix
          | cons m ms =>
            have := (ih (m :: ms) (by simp)
              (fun x hx => hfree x (List.mem_cons_of_mem _ hx))).mpr ht
            rw [hr] at this
            exact absurd (List.prefix_nil.mp this) (by simp)
    | cons a as =>
      have hstep : rstripP p (c :: cs) = c :: a :: as := by
        simp only [rstripP, hr]
      rw [hstep, List.cons_prefix_cons, List.cons_prefix_cons]
      constructor
      · rintro ⟨he, ht⟩
        refine ⟨he, ?_⟩
        cases ntl with
        | nil => exact List.nil_prefix
        | cons m ms =>
          have := (ih (m :: ms) (by simp)
            (fun x hx => hfree x (List.mem_cons_of_mem _ hx)))
          rw [hr] at this
          exact this.mp ht
      · rintro ⟨he, ht⟩
        refine ⟨he, ?_⟩
        cases ntl with
        | nil => exact List.nil_prefix
        | cons m ms =>
          have := (ih (m :: ms) (by simp)
            (fun x hx => hfree x (List.mem_cons_of_mem _ hx)))
          rw [hr] at this
          exact this.mpr ht

theorem pyStrip_prefix_iff (needle s : Str) (hne : needle ≠ [])
    (hfree : ∀ c ∈ needle, pySpace c = false) :
    (needle <+: pyStrip s ↔ needle <+: lstripP pySpace s) :=
  rstripP_prefix_iff pySpace (lstripP pySpace s) needle hne hfree

theorem containsSub_append_left (n : Str) :
    ∀ (xs ys : Str), containsSub n ys = true → containsSub n (xs ++ ys) = true := by
  intro xs
  induction xs with
  | nil => intro ys h; simpa using h
  | cons x xt ih =>
    intro ys h
    have : containsSub n (x :: (xt ++ ys)) =
        (n.isPrefixOf (x :: (xt ++ ys)) || containsSub n (xt ++ ys)) := rfl
    rw [List.cons_append, this, ih ys h, Bool.or_true]

/-! ### Claim C4: classification of a probed candidate -/

/-- Claim C4: A probed candidate is classified as matched iff its status is
200 and at least one of: the (lowercased) content-type contains `svg`;
it contains `image/svg`; the body after trimming leading whitespace
starts with an XML declaration and `svg` occurs within the first 200
characters of the body; or the trimmed body starts with `<svg`.  The
disjuncts make the two "in particular" sentences immediate: a trimmed
body starting with `<svg` matches regardless of content-type, and a
content-type containing `svg` matches regardless of body. -/
theorem C4_svg_match_iff (status : Nat) (ct text : Str) :
    classifyMatched status ct text = true ↔
      (status = 200 ∧
        (containsSub "svg".data (content_type_of ct) = true ∨
         containsSub "image/svg".data (content_type_of ct) = true ∨
         ("<?xml".data.isPrefixOf (lstripP pySpace text) = true ∧
           containsSub "svg".data (text.take 200) = true) ∨
         "<svg".data.isPrefixOf (lstripP pySpace text) = true)) := by
  have h1 : ("<?xml".data.isPrefixOf (pyStrip text) = true)
      ↔ ("<?xml".data.isPrefixOf (lstripP pySpace text) = true) := by
    rw [ List.isPrefixOf_iff_prefix, List.isPrefixOf_iff_prefix]
    exact pyStrip_prefix_iff _ _ (by decide) (by decide)
  have h2 : ("<svg".data.isPrefixOf (pyStrip text) = true)
      ↔ ("<svg".data.isPrefixOf (lstripP pySpace text) = true) := by
    rw [ List.isPrefixOf_iff_prefix, List.isPrefixOf_iff_prefix]
    exact pyStrip_prefix_iff _ _ (by decide) (by decide)
  simp only [classifyMatched, is_svg_content, Bool.and_eq_true, Bool.or_eq_true,
    beq_iff_eq]
  rw [h1, h2]
  tauto

/-! ### Claim C5: the candidate URL list and the probe loop -/

/-- Source `miro-svg-dl.py` line 119: `base_url = src.split('?')[0]` — everything
before the first `?`. -/
def base_url (src : Str) : Str := src.takeWhile (fun c => !(c = '?'))

/-- Source `miro-svg-dl.py` lines 115-126: the ordered candidate list; it stays
empty when the item's `imageUrl` is empty (`if src:`). -/
def download_urls_to_try (src : Str) : List Str :=
  if src = [] then []
  else
    [ base_url src ++ "?format=original&redirect=true".data
    , base_url src ++ "?redirect=true".data
    , base_url src ++ "?format=original".data
    , base_url src
    , src ]

/-- The outcome of issuing one probe GET: `none` models a transport
exception (caught at lines 163-166), `some` carries status,
raw content-type header and decoded body. -/
structure ProbeResp where
  status : Nat
  contentType : Str
  body : Str
deriving DecidableEq

/-- Whether one probe response is classified as SVG content
(lines 140-153); an exception never matches. -/
def respMatched (r : Option ProbeResp) : Bool :=
  match r with
  | none => false
  | some r => classifyMatched r.status r.contentType r.body

/-- Source `miro-svg-dl.py` lines 129-166: try each candidate in order; a
transport exception moves on to the next candidate; the loop breaks at
the first matched response, returning `successful_url`. -/
def probeFirstMatch (respond : Str → Option ProbeResp) : List Str → Option Str
  | [] => none
  | u :: us =>
    if respMatched (respond u) then some u
    else probeFirstMatch respond us

theorem probeFirstMatch_eq_find (respond : Str → Option ProbeResp) :
    ∀ us : List Str,
      probeFirstMatch respond us = us.find? (fun u => respMatched (respond u)) := by
  intro us
  induction us with
  | nil => rfl
  | cons u ut ih =>
    rw [List.find?_cons]
    cases h : respMatched (respond u) with
    | true => simp [probeFirstMatch, h]
    | false => simp [probeFirstMatch, h, ih]

/-- Claim C5: For a non-empty base resource URL the candidate list is
exactly the five URLs in the stated order; the first carries both
`format=original` and `redirect=true`, the last is the untouched
original URL, and the probe loop stops at the first match (it returns
`find?` of the match predicate over the list). -/
theorem C5_candidate_urls (src : Str) (h : src ≠ []) :
    download_urls_to_try src =
      [ base_url src ++ "?format=original&redirect=true".data
      , base_url src ++ "?redirect=true".data
      , base_url src ++ "?format=original".data
      , base_url src
      , src ] ∧
    (∃ first, (download_urls_to_try src).head? = some first ∧
      containsSub "format=original".data first = true ∧
      containsSub "redirect=true".data first = true) ∧
    (download_urls_to_try src).getLast? = some src ∧
    (∀ respond, probeFirstMatch respond (download_urls_to_try src) =
      (download_urls_to_try src).find? (fun u => respMatched (respond u))) := by
  have hd : download_urls_to_try src =
      [ base_url src ++ "?format=original&redirect=true".data
      , base_url src ++ "?redirect=true".data
      , base_url src ++ "?format=original".data
      , base_url src
      , src ] := by
    simp [download_urls_to_try, h]
  refine ⟨hd, ⟨base_url src ++ "?format=original&redirect=true".data, ?_, ?_, ?_⟩, ?_, ?_⟩
  · rw [hd]; rfl
  · exact containsSub_append_left _ _ _ (by decide)
  · exact containsSub_append_left _ _ _ (by decide)
  · rw [hd]; rfl
  · intro respond; exact probeFirstMatch_eq_find respond _

/-- Claim C5 witness: The candidate list for a concrete URL with a query
string: hypothesis and conclusion instantiated at
`https://h/x.svg?k=1`. -/
theorem C5_candidate_urls_witness :
    "https://h/x.svg?k=1".data ≠ ([] : Str) ∧
      ((download_urls_to_try "https://h/x.svg?k=1".data).getLast? =
        some "https://h/x.svg?k=1".data) :=
  ⟨by decide, (C5_candidate_urls "https://h/x.svg?k=1".data (by decide)).2.2.1⟩

/-! ### Claim C7: filename sanitization -/

/-- The character class of `re.sub(r'[<>:"/\\|?*]', '_', ...)`
(`miro-svg-dl.py` line 183). -/
def illegalFsChar (c : Char) : Bool :=
  c = '<' || c = '>' || c = ':' || c = '"' || c = '/' || c = '\\' ||
  c = '|' || c = '?' || c = '*'

/-- Source `miro-svg-dl.py` line 183: replace every illegal character by `_`. -/
def replaceIllegal (s : Str) : Str :=
  s.map (fun c => if illegalFsChar c then '_' else c)

/-- The character class of `.strip('. ')` (line 184). -/
def dotSpace (c : Char) : Bool := c = '.' || c = ' '

/-- Python `s.lower().endswith('.svg')` (line 187). -/
def endsWithSvg (s : Str) : Bool := ".svg".data.isSuffixOf (pyLower s)

/-- Source `miro-svg-dl.py` lines 181-190: sanitize a recovered filename —
replace illegal characters, trim leading/trailing dots and spaces, and
append `.svg` unless the name already ends with it case-insensitively. -/
def sanitizeFilename (original : Str) : Str :=
  if endsWithSvg (stripP dotSpace (replaceIllegal original)) then
    stripP dotSpace (replaceIllegal original)
  else
    stripP dotSpace (replaceIllegal original) ++ ".svg".data

theorem rstripP_prefix_self (p : Char → Bool) :
    ∀ s : Str, rstripP p s <+: s := by
  intro s
  induction s with
  | nil => simp [rstripP]
  | cons c cs ih =>
    cases hr : rstripP p cs with
    | nil =>
      cases hc : p c with
      | true =>
        have hstep : rstripP p (c :: cs) = [] := by simp [rstripP, hr, hc]
        rw [hstep]; exact List.nil_prefix
      | false =>
        have hstep : rstripP p (c :: cs) = [c] := by simp [rstripP, hr, hc]
        rw [hstep, List.cons_prefix_cons]
        exact ⟨rfl, List.nil_prefix⟩
    | cons a as =>
      have hstep : rstripP p (c :: cs) = c :: a :: as := by simp only [rstripP, hr]
      rw [hstep, List.cons_prefix_cons]
      exact ⟨rfl, hr ▸ ih⟩

theorem mem_of_mem_stripP (p : Char → Bool) (s : Str) (c : Char)
    (hc : c ∈ stripP p s) : c ∈ s := by
  have h1 : c ∈ lstripP p s := (rstripP_prefix_self p (lstripP p s)).subset hc
  exact (List.dropWhile_suffix p).subset h1

theorem rstripP_getLast_false (p : Char → Bool) :
    ∀ (s : Str) (a : Char), (rstripP p s).getLast? = some a → p a = false := by
  intro s
  induction s with
  | nil => intro a h; simp [rstripP] at h
  | cons c cs ih =>
    intro a h
    cases hr : rstripP p cs with
    | nil =>
      cases hc : p c with
      | true =>
        have hstep : rstripP p (c :: cs) = [] := by simp [rstripP, hr, hc]
        rw [hstep] at h; simp at h
      | false =>
        have hstep : rstripP p (c :: cs) = [c] := by simp [rstripP, hr, hc]
        rw [hstep] at h
        simp at h
        rw [← h]; exact hc
    | cons x xs =>
      have hstep : rstripP p (c :: cs) = c :: x :: xs := by simp only [rstripP, hr]
      rw [hstep, List.getLast?_cons_cons, ← hr] at h
      exact ih a h

theorem rstripP_eq_self_of_getLast (p : Char → Bool) :
    ∀ (s : Str) (a : Char), s.getLast? = some a → p a = false → rstripP p s = s := by
  intro s
  induction s with
  | nil => intro a h; simp at h
  | cons c cs ih =>
    intro a h hp
    cases cs with
    | nil =>
      simp at h
      rw [← h] at hp
      simp [rstripP, hp]
    | cons d ds =>
      rw [List.getLast?_cons_cons] at h
      have hcs : rstripP p (d :: ds) = d :: ds := ih a h hp
      have hstep : rstripP p (c :: d :: ds) =
          match rstripP p (d :: ds) with
          | [] => if p c then [] else [c]
          | r => c :: r := rfl
      rw [hstep, hcs]

theorem lstripP_eq_self_of_head (p : Char → Bool) (s : Str) (a : Char)
    (h : s.head? = some a) (hp : p a = false) : lstripP p s = s := by
  cases s with
  | nil => rfl
  | cons c cs =>
    simp at h
    rw [← h] at hp
    simp [lstripP, List.dropWhile_cons, hp]

theorem stripP_eq_self (p : Char → Bool) (s : Str) (a b : Char)
    (ha : s.head? = some a) (hpa : p a = false)
    (hb : s.getLast? = some b) (hpb : p b = false) : stripP p s = s := by
  unfold stripP
  rw [lstripP_eq_self_of_head p s a ha hpa,
    rstripP_eq_self_of_getLast p s b hb hpb]

theorem replaceIllegal_eq_self (s : Str)
    (h : ∀ c ∈ s, illegalFsChar c = false) : replaceIllegal s = s := by
  unfold replaceIllegal
  have : ∀ c ∈ s, (if illegalFsChar c then '_' else c) = id c := by
    intro c hc
    rw [h c hc]
    simp
  rw [List.map_congr_left this, List.map_id]

theorem mem_replaceIllegal_not_illegal (s : Str) (c : Char)
    (hc : c ∈ replaceIllegal s) : illegalFsChar c = false := by
  unfold replaceIllegal at hc
  rcases List.mem_map.mp hc with ⟨a, _, ha⟩
  by_cases hi : illegalFsChar a = true
  · rw [hi] at ha; simp at ha; rw [← ha]; decide
  · rw [Bool.not_eq_true] at hi
    rw [hi] at ha; simp at ha; rw [← ha]; exact hi

/-- Claim C7 counterexample: Sanitization is not idempotent:
for the input `"."` the sanitized name is `".svg"`, but sanitizing
`".svg"` again yields `"svg.svg"`. -/
theorem C7_counterexample :
    sanitizeFilename (sanitizeFilename ".".data) ≠ sanitizeFilename ".".data := by
  decide

/-- Claim C7 (amended): Sanitization is idempotent for every input on
which replacing illegal characters and trimming leading/trailing dots
and spaces leaves a non-empty name; the only way idempotence can fail
is when the trim leaves nothing, in which case the first pass returns
the bare `.svg`, whose own sanitization is `svg.svg`. -/
theorem C7_sanitize_idempotent (s : Str)
    (h : stripP dotSpace (replaceIllegal s) ≠ []) :
    sanitizeFilename (sanitizeFilename s) = sanitizeFilename s := by
  obtain ⟨a, t', ht⟩ : ∃ a t', stripP dotSpace (replaceIllegal s) = a :: t' := by
    cases hc : stripP dotSpace (replaceIllegal s) with
    | nil => exact absurd hc h
    | cons a t' => exact ⟨a, t', rfl⟩
  have htfree : ∀ c ∈ stripP dotSpace (replaceIllegal s), illegalFsChar c = false :=
    fun c hc => mem_replaceIllegal_not_illegal s c (mem_of_mem_stripP dotSpace _ c hc)
  have hhead : (stripP dotSpace (replaceIllegal s)).head? = some a := by
    rw [ht]; rfl
  have hpa : dotSpace a = false := by
    have hpre := rstripP_prefix_self dotSpace (lstripP dotSpace (replaceIllegal s))
    rw [show rstripP dotSpace (lstripP dotSpace (replaceIllegal s)) =
        stripP dotSpace (replaceIllegal s) from rfl, ht] at hpre
    rcases hpre with ⟨r, hr⟩
    exact lstripP_head dotSpace (replaceIllegal s) a (t' ++ r) (by rw [← hr]; rfl)
  obtain ⟨b, hlast⟩ : ∃ b, (stripP dotSpace (replaceIllegal s)).getLast? = some b := by
    rw [ht]
    exact ⟨(a :: t').getLast (by simp), List.getLast?_eq_getLast _ _⟩
  have hpb : dotSpace b = false :=
    rstripP_getLast_false dotSpace (lstripP dotSpace (replaceIllegal s)) b hlast
  cases hE : endsWithSvg (stripP dotSpace (replaceIllegal s)) with
  | true =>
    have ho : sanitizeFilename s = stripP dotSpace (replaceIllegal s) := by
      unfold sanitizeFilename
      rw [hE]
      simp
    rw [ho]
    unfold sanitizeFilename
    rw [replaceIllegal_eq_self _ htfree,
      stripP_eq_self dotSpace _ a b hhead hpa hlast hpb, hE]
    simp
  | false =>
    have ho : sanitizeFilename s = stripP dotSpace (replaceIllegal s) ++ ".svg".data := by
      unfold sanitizeFilename
      rw [hE]
      simp
    rw [ho]
    have hfree2 : ∀ c ∈ stripP dotSpace (replaceIllegal s) ++ ".svg".data,
        illegalFsChar c = false := by
      intro c hc
      rcases List.mem_append.mp hc with hc | hc
      · exact htfree c hc
      · have hall : ∀ x ∈ ".svg".data, illegalFsChar x = false := by decide
        exact hall c hc
    have hhead2 : (stripP dotSpace (replaceIllegal s) ++ ".svg".data).head? = some a := by
      rw [List.head?_append_of_ne_nil _ h]; exact hhead
    have hlast2 : (stripP dotSpace (replaceIllegal s) ++ ".svg".data).getLast? = some 'g' := by
      rw [List.getLast?_append]; rfl
    have hE2 : endsWithSvg (stripP dotSpace (replaceIllegal s) ++ ".svg".data) = true := by
      unfold endsWithSvg pyLower
      rw [List.map_append]
      rw [List.isSuffixOf_iff_suffix]
      have : List.map Char.toLower ".svg".data = ".svg".data := by decide
      rw [this]
      exact List.suffix_append _ _
    unfold sanitizeFilename
    rw [replaceIllegal_eq_self _ hfree2,
      stripP_eq_self dotSpace _ a 'g' hhead2 hpa hlast2 (by decide), hE2]
    simp

/-- Claim C7 witness: Idempotence instantiated at `report.svg`. -/
theorem C7_sanitize_idempotent_witness :
    stripP dotSpace (replaceIllegal "report.svg".data) ≠ [] ∧
      sanitizeFilename (sanitizeFilename "report.svg".data) =
        sanitizeFilename "report.svg".data :=
  ⟨by decide, C7_sanitize_idempotent "report.svg".data (by decide)⟩

/-! ### Claim C6: collision resolution never overwrites -/

/-- Structural helper computing the decimal digits of `n`
most-significant first, with enough fuel. -/
def natReprAux : Nat → Nat → Str
  | 0, _ => []
  | fuel+1, n => if n = 0 then [] else natReprAux fuel (n / 10) ++ [Nat.digitChar (n % 10)]

/-- Python's decimal rendering `str(n)` of the collision counter. -/
def natRepr (n : Nat) : Str := if n = 0 then ['0'] else natReprAux (n + 1) n

/-- Source `miro-svg-dl.py` lines 203-207: the regenerated filename
`f"{name_part}_{counter}.svg"` (identical shape in the item-id branch). -/
def nextName (basePart : Str) (counter : Nat) : Str :=
  basePart ++ "_".data ++ natRepr counter ++ ".svg".data

/-- Source `miro-svg-dl.py` lines 200-209: the `while dest.exists()` loop with
the incrementing counter.  The Python loop carries no fuel; its
termination relies on fresh names eventually missing the finite
directory, which `resolveDest` encodes by passing fuel
`existing.length + 1` — provably enough, so the fuel-exhausted branch
is never reached. -/
def resolveLoop (existing : List Str) (basePart : Str) : Nat → Nat → Str
  | counter, 0 => nextName basePart counter
  | counter, fuel+1 =>
    if nextName basePart counter ∈ existing then
      resolveLoop existing basePart (counter + 1) fuel
    else nextName basePart counter

/-- Source `miro-svg-dl.py` lines 197-209: the destination starts as the
resolved filename and is regenerated from the base part while it
collides with an existing file. -/
def resolveDest (existing : List Str) (first basePart : Str) : Str :=
  if first ∈ existing then resolveLoop existing basePart 1 (existing.length + 1)
  else first

theorem natReprAux_eq_digits :
    ∀ (fuel n : Nat), n ≤ fuel →
      natReprAux fuel n = ((Nat.digits 10 n).map Nat.digitChar).reverse := by
  intro fuel
  induction fuel with
  | zero =>
    intro n hn
    interval_cases n
    simp [natReprAux]
  | succ fuel ih =>
    intro n hn
    by_cases h0 : n = 0
    · simp [natReprAux, h0]
    · have hdiv : n / 10 ≤ fuel := by
        have : n / 10 < n := Nat.div_lt_self (Nat.pos_of_ne_zero h0) (by norm_num)
        omega
      have hstep : natReprAux (fuel + 1) n =
          natReprAux fuel (n / 10) ++ [Nat.digitChar (n % 10)] := by
        simp [natReprAux, h0]
      rw [hstep, ih (n / 10) hdiv,
        Nat.digits_def' (by norm_num : 1 < 10) (Nat.pos_of_ne_zero h0),
        List.map_cons, List.reverse_cons]

theorem map_digitChar_injOn :
    ∀ (l₁ l₂ : List Nat), (∀ d ∈ l₁, d < 10) → (∀ d ∈ l₂, d < 10) →
      l₁.map Nat.digitChar = l₂.map Nat.digitChar → l₁ = l₂ := by
  intro l₁
  induction l₁ with
  | nil =>
    intro l₂ _ _ h
    cases l₂ with
    | nil => rfl
    | cons b bs => simp at h
  | cons a as ih =>
    intro l₂ h₁ h₂ h
    cases l₂ with
    | nil => simp at h
    | cons b bs =>
      simp only [List.map_cons, List.cons.injEq] at h
      have hd : ∀ a < 10, ∀ b < 10, Nat.digitChar a = Nat.digitChar b → a = b := by decide
      have ha := h₁ a (List.mem_cons_self _ _)
      have hb := h₂ b (List.mem_cons_self _ _)
      rw [hd a ha b hb h.1,
        ih bs (fun d hdm => h₁ d (List.mem_cons_of_mem _ hdm))
          (fun d hdm => h₂ d (List.mem_cons_of_mem _ hdm)) h.2]

theorem digits_eq_of_map_digitChar_eq (m n : Nat)
    (h : ((Nat.digits 10 m).map Nat.digitChar) = ((Nat.digits 10 n).map Nat.digitChar)) :
    m = n := by
  have hm : ∀ d ∈ Nat.digits 10 m, d < 10 :=
    fun d hd => Nat.digits_lt_base (by norm_num) hd
  have hn : ∀ d ∈ Nat.digits 10 n, d < 10 :=
    fun d hd => Nat.digits_lt_base (by norm_num) hd
  have hdig := map_digitChar_injOn _ _ hm hn h
  have := congrArg (Nat.ofDigits 10) hdig
  rwa [Nat.ofDigits_digits, Nat.ofDigits_digits] at this

theorem natRepr_nonzero_ne_zero_repr (n : Nat) (hn : n ≠ 0) :
    ((Nat.digits 10 n).map Nat.digitChar).reverse ≠ ['0'] := by
  intro h
  have h' : (Nat.digits 10 n).map Nat.digitChar = ['0'] := by
    have := congrArg List.reverse h
    rwa [List.reverse_reverse] at this
  cases hd : Nat.digits 10 n with
  | nil => rw [hd] at h'; simp at h'
  | cons d ds =>
    rw [hd] at h'
    simp only [List.map_cons, List.cons.injEq] at h'
    have hds : ds = [] := by
      have := h'.2
      cases ds with
      | nil => rfl
      | cons x xs => simp at this
    have hdlt : d < 10 :=
      Nat.digits_lt_base (by norm_num) (hd ▸ List.mem_cons_self d ds)
    have hd0 : d = 0 := by
      have hzero : ∀ d < 10, Nat.digitChar d = '0' → d = 0 := by decide
      exact hzero d hdlt h'.1
    have := Nat.ofDigits_digits 10 n
    rw [hd, hds, hd0] at this
    simp [Nat.ofDigits] at this
    exact hn this.symm

theorem natRepr_injective : Function.Injective natRepr := by
  intro m n h
  unfold natRepr at h
  by_cases hm : m = 0 <;> by_cases hn : n = 0
  · rw [hm, hn]
  · rw [if_pos hm, if_neg hn, natReprAux_eq_digits (n + 1) n (by omega)] at h
    exact absurd h.symm (natRepr_nonzero_ne_zero_repr n hn)
  · rw [if_neg hm, if_pos hn, natReprAux_eq_digits (m + 1) m (by omega)] at h
    exact absurd h (natRepr_nonzero_ne_zero_repr m hm)
  · rw [if_neg hm, if_neg hn, natReprAux_eq_digits (m + 1) m (by omega),
      natReprAux_eq_digits (n + 1) n (by omega)] at h
    exact digits_eq_of_map_digitChar_eq m n (List.reverse_injective h)

theorem nextName_injective (basePart : Str) :
    Function.Injective (nextName basePart) := by
  intro c₁ c₂ h
  unfold nextName at h
  have h1 := List.append_cancel_right h
  have h2 := List.append_cancel_left h1
  exact natRepr_injective h2

theorem resolveLoop_all_mem (existing : List Str) (basePart : Str) :
    ∀ (fuel counter : Nat),
      resolveLoop existing basePart counter fuel ∈ existing →
      ∀ k ∈ List.range' counter (fuel + 1), nextName basePart k ∈ existing := by
  intro fuel
  induction fuel with
  | zero =>
    intro counter h k hk
    simp only [List.range'_succ, List.range'] at hk
    simp at hk
    rw [hk]
    exact h
  | succ fuel ih =>
    intro counter h k hk
    by_cases hmem : nextName basePart counter ∈ existing
    · have hstep : resolveLoop existing basePart counter (fuel + 1) =
          resolveLoop existing basePart (counter + 1) fuel := by
        simp [resolveLoop, hmem]
      rw [hstep] at h
      rw [List.range'_succ] at hk
      rcases List.mem_cons.mp hk with rfl | hk'
      · exact hmem
      · exact ih (counter + 1) h k hk'
    · have hstep : resolveLoop existing basePart counter (fuel + 1) =
          nextName basePart counter := by
        simp [resolveLoop, hmem]
      rw [hstep] at h
      exact absurd h hmem

theorem resolveLoop_not_mem (existing : List Str) (basePart : Str)
    (counter fuel : Nat) (hfuel : existing.length ≤ fuel) :
    resolveLoop existing basePart counter fuel ∉ existing := by
  intro h
  have hall := resolveLoop_all_mem existing basePart fuel counter h
  set L := (List.range' counter (fuel + 1)).map (nextName basePart) with hL
  have hnodup : L.Nodup :=
    List.Nodup.map (nextName_injective basePart) (List.nodup_range' _ _)
  have hsub : ∀ x ∈ L, x ∈ existing := by
    intro x hx
    rcases List.mem_map.mp hx with ⟨k, hk, rfl⟩
    exact hall k hk
  have hcard : L.toFinset.card = fuel + 1 := by
    rw [List.toFinset_card_of_nodup hnodup, hL, List.length_map, List.length_range']
  have hle : L.toFinset.card ≤ existing.toFinset.card :=
    Finset.card_le_card (fun x hx =>
      List.mem_toFinset.mpr (hsub x (List.mem_toFinset.mp hx)))
  have := List.toFinset_card_le existing
  omega

/-- Claim C6: A destination path already on disk is never overwritten:
the resolver's result is never a member of the existing directory
listing, and in the two-item collision scenario (both items resolve to
the same base name, the second sees the first's file) the second write
gets the `_1`-suffixed name, distinct from the first file. -/
theorem C6_no_overwrite :
    (∀ (existing : List Str) (first basePart : Str),
        resolveDest existing first basePart ∉ existing) ∧
    (∀ (existing : List Str) (first basePart : Str),
        first ∉ existing →
        nextName basePart 1 ∉ first :: existing →
        resolveDest existing first basePart = first ∧
        resolveDest (first :: existing) first basePart = nextName basePart 1 ∧
        nextName basePart 1 ≠ first) := by
  constructor
  · intro existing first basePart
    unfold resolveDest
    by_cases hmem : first ∈ existing
    · rw [if_pos hmem]
      exact resolveLoop_not_mem existing basePart 1 (existing.length + 1) (by omega)
    · rw [if_neg hmem]
      exact hmem
  · intro existing first basePart hfirst hfresh
    refine ⟨?_, ?_, ?_⟩
    · unfold resolveDest
      rw [if_neg hfirst]
    · unfold resolveDest
      rw [if_pos (List.mem_cons_self _ _)]
      have hstep : resolveLoop (first :: existing) basePart 1
          ((first :: existing).length + 1) =
          nextName basePart 1 := by
        cases hfe : (first :: existing).length + 1 with
        | zero => simp at hfe
        | succ fuel => simp [resolveLoop, hfresh]
      exact hstep
    · intro heq
      exact hfresh (heq ▸ List.mem_cons_self _ _)

/-- Claim C6 witness: Two items resolving to `report.svg` over an empty
directory: the first write keeps `report.svg`, the second becomes
`report_1.svg`. -/
theorem C6_no_overwrite_witness :
    "report.svg".data ∉ ([] : List Str) ∧
    nextName "report".data 1 ∉ ["report.svg".data] ∧
    resolveDest [] "report.svg".data "report".data = "report.svg".data ∧
    resolveDest ["report.svg".data] "report.svg".data "report".data =
      "report_1.svg".data := by
  have h := C6_no_overwrite.2 [] "report.svg".data "report".data
    (by decide) (by decide)
  refine ⟨by decide, by decide, h.1, ?_⟩
  rw [h.2.1]
  decide

/-! ### Claim C9: the summary counters -/

/-- The summary-relevant outcome of processing one item
(`miro-svg-dl.py` lines 168-171 skip, 213-226 download). -/
inductive ItemOutcome
  | skipped
  | downloadFailed
  | saved (usedOriginalName : Bool)
deriving DecidableEq

/-- The three global run counters (lines 98-100). -/
structure Counters where
  total_saved : Nat
  files_with_original_names : Nat
  files_with_generated_names : Nat
deriving DecidableEq

/-- Lines 98-100: all three counters start at zero. -/
def initCounters : Counters := ⟨0, 0, 0⟩

/-- Lines 213-226: only a successful download touches the counters —
`total_saved += 1` plus exactly one of the two name-source counters,
chosen by the truthiness of `original_filename`. -/
def stepCounters (c : Counters) (o : ItemOutcome) : Counters :=
  match o with
  | .saved true =>
    ⟨c.total_saved + 1, c.files_with_original_names + 1, c.files_with_generated_names⟩
  | .saved false =>
    ⟨c.total_saved + 1, c.files_with_original_names, c.files_with_generated_names + 1⟩
  | _ => c

/-- The counters at the end of a run over the given item outcomes. -/
def runCounters (outcomes : List ItemOutcome) : Counters :=
  outcomes.foldl stepCounters initCounters

theorem foldl_counters_invariant (outcomes : List ItemOutcome) :
    ∀ c : Counters,
      c.total_saved = c.files_with_original_names + c.files_with_generated_names →
      (outcomes.foldl stepCounters c).total_saved =
        (outcomes.foldl stepCounters c).files_with_original_names +
        (outcomes.foldl stepCounters c).files_with_generated_names := by
  induction outcomes with
  | nil => intro c h; exact h
  | cons o os ih =>
    intro c h
    rw [List.foldl_cons]
    refine ih (stepCounters c o) ?_
    cases o with
    | skipped => exact h
    | downloadFailed => exact h
    | saved b => cases b <;> simp [stepCounters] <;> omega

/-- Claim C9: At the end of every run
`total_saved = files_with_original_names + files_with_generated_names`:
a save increments `total_saved` and exactly one name-source counter
(the one matching the name's source), and the two non-save outcomes
leave all three counters unchanged. -/
theorem C9_counters_balance :
    (∀ outcomes : List ItemOutcome,
        (runCounters outcomes).total_saved =
          (runCounters outcomes).files_with_original_names +
          (runCounters outcomes).files_with_generated_names) ∧
    (∀ c : Counters, stepCounters c (.saved true) =
      ⟨c.total_saved + 1, c.files_with_original_names + 1,
        c.files_with_generated_names⟩) ∧
    (∀ c : Counters, stepCounters c (.saved false) =
      ⟨c.total_saved + 1, c.files_with_original_names,
        c.files_with_generated_names + 1⟩) ∧
    (∀ c : Counters, stepCounters c .skipped = c) ∧
    (∀ c : Counters, stepCounters c .downloadFailed = c) :=
  ⟨fun outcomes => foldl_counters_invariant outcomes initCounters rfl,
    fun _ => rfl, fun _ => rfl, fun _ => rfl, fun _ => rfl⟩

/-! ### Claim C8: original-filename recovery and the generated-name fallback -/

/-- The observable outcome of the HEAD request (line 62): the status
and the `content-disposition` header looked up with default `''`
(line 64).  `none` at the `Option HeadResult` layer models the
exception swallowed by lines 74-75. -/
structure HeadResult where
  status : Nat
  contentDisposition : Str
deriving DecidableEq

/-- Source `re.search(r'filename="([^"]+)"', cd)` (line 67): leftmost position
where the literal `filename="` is followed by a non-empty run of
non-quote characters and a closing quote; the capture is that run. -/
def findQuotedFilename : Str → Option Str
  | [] => none
  | c :: cs =>
    let rest := List.drop 10 (c :: cs)
    let run := rest.takeWhile (fun x => !(x = '"'))
    if "filename=\"".data.isPrefixOf (c :: cs) ∧ run ≠ [] ∧ run.length < rest.length
    then some run
    else findQuotedFilename cs

/-- Source `re.search(r'filename=([^;]+)', cd)` (line 71): leftmost position
where the literal `filename=` is followed by a non-empty run of
non-semicolon characters; the capture is that run. -/
def findUnquotedFilename : Str → Option Str
  | [] => none
  | c :: cs =>
    let run := (List.drop 9 (c :: cs)).takeWhile (fun x => !(x = ';'))
    if "filename=".data.isPrefixOf (c :: cs) ∧ run ≠ [] then some run
    else findUnquotedFilename cs

/-- Source `miro-svg-dl.py` lines 57-76: `get_filename_from_headers` — `None`
unless the HEAD succeeded with status 200, the header is non-empty, and
one of the two regexes matches (the unquoted capture is stripped). -/
def get_filename_from_headers (r : Option HeadResult) : Option Str :=
  match r with
  | none => none
  | some hr =>
    if hr.status = 200 then
      if hr.contentDisposition ≠ [] then
        match findQuotedFilename hr.contentDisposition with
        | some name => some name
        | none =>
          match findUnquotedFilename hr.contentDisposition with
          | some name => some (pyStrip name)
          | none => none
      else none
    else none

/-- Source `miro-svg-dl.py` lines 180-195: pick the sanitized original name
when `original_filename` is truthy (a non-empty string), else fall back
to `{item_id}.svg`; the Bool records which branch was taken, which is
what lines 217-221 consult for the summary. -/
def chooseFilename (originalFilename : Option Str) (itemId : Str) : Str × Bool :=
  match originalFilename with
  | some n => if n ≠ [] then (sanitizeFilename n, true) else (itemId ++ ".svg".data, false)
  | none => (itemId ++ ".svg".data, false)

/-- Claim C8: Whenever no original filename is recoverable — the HEAD
request failed, returned non-200, the `Content-Disposition` header is
absent/empty, or neither regex parses a filename — the resolver yields
`{item-id}.svg`, and a successful download of that file is counted as
a generated name (it bumps `files_with_generated_names`, not
`files_with_original_names`). -/
theorem C8_generated_name_fallback (r : Option HeadResult) (itemId : Str)
    (h : r = none ∨ ∃ hr, r = some hr ∧
        (hr.status ≠ 200 ∨ hr.contentDisposition = [] ∨
          (findQuotedFilename hr.contentDisposition = none ∧
           findUnquotedFilename hr.contentDisposition = none))) :
    get_filename_from_headers r = none ∧
    chooseFilename (get_filename_from_headers r) itemId =
      (itemId ++ ".svg".data, false) ∧
    (∀ c : Counters,
      stepCounters c (ItemOutcome.saved
          (chooseFilename (get_filename_from_headers r) itemId).2) =
        ⟨c.total_saved + 1, c.files_with_original_names,
          c.files_with_generated_names + 1⟩) := by
  have hnone : get_filename_from_headers r = none := by
    rcases h with rfl | ⟨hr, rfl, hcase⟩
    · rfl
    · rcases hcase with hst | hcd | ⟨hq, hu⟩
      · simp [get_filename_from_headers, hst]
      · simp [get_filename_from_headers, hcd]
      · simp [get_filename_from_headers, hq, hu]
  refine ⟨hnone, ?_, ?_⟩
  · rw [hnone]; rfl
  · intro c; rw [hnone]; rfl

/-- Claim C8 witness: A HEAD that returns 200 with no
`Content-Disposition` header (modelled as the empty default), for item
id `abc123`: the destination name is `abc123.svg` and it is counted as
generated. -/
theorem C8_generated_name_fallback_witness :
    ((some ⟨200, []⟩ : Option HeadResult) = none ∨
      ∃ hr, (some ⟨200, []⟩ : Option HeadResult) = some hr ∧
        (hr.status ≠ 200 ∨ hr.contentDisposition = [] ∨
          (findQuotedFilename hr.contentDisposition = none ∧
           findUnquotedFilename hr.contentDisposition = none))) ∧
    chooseFilename (get_filename_from_headers (some ⟨200, []⟩)) "abc123".data =
      ("abc123.svg".data, false) := by
  have hyp : (some ⟨200, []⟩ : Option HeadResult) = none ∨
      ∃ hr, (some ⟨200, []⟩ : Option HeadResult) = some hr ∧
        (hr.status ≠ 200 ∨ hr.contentDisposition = [] ∨
          (findQuotedFilename hr.contentDisposition = none ∧
           findUnquotedFilename hr.contentDisposition = none)) :=
    Or.inr ⟨⟨200, []⟩, rfl, Or.inr (Or.inl rfl)⟩
  refine ⟨hyp, ?_⟩
  have h := (C8_generated_name_fallback (some ⟨200, []⟩) "abc123".data hyp).2.1
  rw [h]
  decide

/-! ### Claim C2: the `--include-docs` flag -/

/-- The command-line options parsed at `miro-svg-dl.py` lines 82-88. -/
structure Args where
  board : Str
  token : Str
  out : Str
  include_docs : Bool
  quiet : Bool

/-- Source `miro-svg-dl.py` line 97: the item types `main` scans.  The list is
a constant: `args.include_docs` is parsed (lines 85-86) but never read
afterwards, so the scanned types do not depend on the arguments at
all. -/
def scanned_types (_ : Args) : List Str :=
  [ "image".data, "document".data, "shape".data, "sticky_note".data,
    "text".data, "frame".data, "app_card".data ]

/-- Claim C2 (code bug): Contrary to the script's own help text, the
scanned item types are independent of `--include-docs`: `document`
(and five further types) are scanned even when the flag is absent; in
particular the default invocation (all flags false) scans the full
seven-type list. -/
theorem C2_include_docs_ignored :
    (∀ a₁ a₂ : Args, scanned_types a₁ = scanned_types a₂) ∧
    (∀ a : Args, "document".data ∈ scanned_types a) ∧
    scanned_types ⟨"b".data, "tok".data, "svgs".data, false, false⟩ =
      [ "image".data, "document".data, "shape".data, "sticky_note".data,
        "text".data, "frame".data, "app_card".data ] :=
  ⟨fun _ _ => rfl,
    fun _ => List.mem_cons_of_mem _ (List.mem_cons_self _ _),
    rfl⟩

/-! ### Claims C3 and C1: pagination and the per-type scan loop -/

/-- A board item as far as `main` reads it: its `id` and the
`data.imageUrl` field looked up with default `''` (lines 108-109). -/
structure Item where
  id : Str
  imageUrl : Str
deriving DecidableEq

/-- Source `miro-svg-dl.py` line 22. -/
def API_ROOT : Str := "https://api.miro.com/v2".data

/-- Source `miro-svg-dl.py` line 29: the first-page listing URL, carrying the
item-type filter and the fixed page size 50. -/
def first_url (board_id item_type : Str) : Str :=
  API_ROOT ++ "/boards/".data ++ board_id ++ "/items?type=".data ++
    item_type ++ "&limit=50".data

/-- Source `miro-svg-dl.py` lines 43-46: the follow-up listing URL built from
the returned cursor.  Note it carries only `cursor=`: the `type=` and
`limit=` parameters of the first request are not reproduced. -/
def next_url (board_id cursor : Str) : Str :=
  API_ROOT ++ "/boards/".data ++ board_id ++ "/items?cursor=".data ++ cursor

/-- One listing-page response: HTTP status, the `data` array and the
optional continuation cursor (lines 35-42). -/
structure PageResp where
  status : Nat
  data : List Item
  cursor : Option Str

/-- Source `miro-svg-dl.py` lines 34-47: the pagination loop of `get_items`.
Returns the requested URLs in order and either the concatenated items
or the status of the first non-200 page (the `RuntimeError` of lines
37-39).  The Python loop runs for as long as the server returns
cursors; the fuel bounds that chain, and every theorem quantifies over
it. -/
def getItemsLoop (fetch : Str → PageResp) (board_id : Str) :
    Str → Nat → List Str × Except Nat (List Item)
  | _, 0 => ([], Except.ok [])
  | url, fuel+1 =>
    if (fetch url).status ≠ 200 then ([url], Except.error (fetch url).status)
    else
      match (fetch url).cursor with
      | none => ([url], Except.ok (fetch url).data)
      | some c =>
        let rest := getItemsLoop fetch board_id (next_url board_id c) fuel
        (url :: rest.1,
          match rest.2 with
          | Except.error e => Except.error e
          | Except.ok items => Except.ok ((fetch url).data ++ items))

/-- Source `get_items(board_id, token, item_type)` (lines 24-47): start at the
first-page URL and follow cursors. -/
def get_items (fetch : Str → PageResp) (board_id item_type : Str) (fuel : Nat) :
    List Str × Except Nat (List Item) :=
  getItemsLoop fetch board_id (first_url board_id item_type) fuel

theorem containsSub_append_right (n : Str) :
    ∀ (xs ys : Str), containsSub n xs = true → containsSub n (xs ++ ys) = true := by
  intro xs
  induction xs with
  | nil =>
    intro ys h
    simp only [containsSub, List.isEmpty_iff] at h
    rw [h]
    cases ys with
    | nil => rfl
    | cons y yt =>
      show ([] : Str).isPrefixOf (y :: yt) || containsSub [] yt = true
      rw [ List.isPrefixOf_iff_prefix.mpr List.nil_prefix]
      rfl
  | cons x xt ih =>
    intro ys h
    have hstep : containsSub n (x :: xt) =
        (n.isPrefixOf (x :: xt) || containsSub n xt) := rfl
    rw [hstep, Bool.or_eq_true] at h
    have hstep2 : containsSub n (x :: (xt ++ ys)) =
        (n.isPrefixOf (x :: (xt ++ ys)) || containsSub n (xt ++ ys)) := rfl
    rw [List.cons_append, hstep2]
    rcases h with h | h
    · have hp : n <+: (x :: xt) := List.isPrefixOf_iff_prefix.mp h
      have : n <+: (x :: xt) ++ ys := hp.trans (List.prefix_append _ _)
      rw [ List.isPrefixOf_iff_prefix.mpr (by simpa using this), Bool.true_or]
    · rw [ih ys h, Bool.or_true]

theorem getItemsLoop_head (fetch : Str → PageResp) (board_id url : Str) (fuel : Nat) :
    (getItemsLoop fetch board_id url (fuel + 1)).1.head? = some url := by
  by_cases hst : (fetch url).status ≠ 200
  · simp [getItemsLoop, hst]
  · cases hc : (fetch url).cursor with
    | none => simp [getItemsLoop, hst, hc]
    | some c => simp [getItemsLoop, hst, hc]

theorem getItemsLoop_tail_cursor (fetch : Str → PageResp) (board_id : Str) :
    ∀ (fuel : Nat) (c₀ : Str),
      ∀ u ∈ (getItemsLoop fetch board_id (next_url board_id c₀) fuel).1,
        ∃ c, u = next_url board_id c := by
  intro fuel
  induction fuel with
  | zero => intro c₀ u hu; simp [getItemsLoop] at hu
  | succ fuel ih =>
    intro c₀ u hu
    by_cases hst : (fetch (next_url board_id c₀)).status ≠ 200
    · have hr : (getItemsLoop fetch board_id (next_url board_id c₀) (fuel + 1)).1 =
          [next_url board_id c₀] := by simp [getItemsLoop, hst]
      rw [hr] at hu
      simp at hu
      exact ⟨c₀, hu⟩
    · cases hc : (fetch (next_url board_id c₀)).cursor with
      | none =>
        have hr : (getItemsLoop fetch board_id (next_url board_id c₀) (fuel + 1)).1 =
            [next_url board_id c₀] := by simp [getItemsLoop, hst, hc]
        rw [hr] at hu
        simp at hu
        exact ⟨c₀, hu⟩
      | some c =>
        have hr : (getItemsLoop fetch board_id (next_url board_id c₀) (fuel + 1)).1 =
            next_url board_id c₀ ::
              (getItemsLoop fetch board_id (next_url board_id c) fuel).1 := by
          simp [getItemsLoop, hst, hc]
        rw [hr] at hu
        rcases List.mem_cons.mp hu with rfl | hu'
        · exact ⟨c₀, rfl⟩
        · exact ih c u hu'

/-- Claim C3 (amended): The enumerator requests the first page at the URL
carrying the `type=` filter and the fixed `limit=50` page size; every
follow-up request is built from the returned cursor alone (the
`cursor=`-only URL of line 44, which drops the type filter and limit);
and a page with no cursor ends the enumeration with that page's
items. -/
theorem C3_pagination (fetch : Str → PageResp) (board_id item_type : Str)
    (fuel : Nat) (hfuel : 0 < fuel) :
    containsSub "type=".data (first_url board_id item_type) = true ∧
    containsSub "&limit=50".data (first_url board_id item_type) = true ∧
    (get_items fetch board_id item_type fuel).1.head? =
      some (first_url board_id item_type) ∧
    (∀ u ∈ (get_items fetch board_id item_type fuel).1.tail,
      ∃ c, u = next_url board_id c) ∧
    ((fetch (first_url board_id item_type)).status = 200 →
      (fetch (first_url board_id item_type)).cursor = none →
      get_items fetch board_id item_type fuel =
        ([first_url board_id item_type],
          Except.ok (fetch (first_url board_id item_type)).data)) := by
  obtain ⟨f, rfl⟩ : ∃ f, fuel = f + 1 := ⟨fuel - 1, by omega⟩
  refine ⟨?_, ?_, ?_, ?_, ?_⟩
  · unfold first_url
    apply containsSub_append_right
    apply containsSub_append_right
    apply containsSub_append_left
    decide
  · apply containsSub_append_left
    decide
  · exact getItemsLoop_head fetch board_id _ f
  · intro u hu
    unfold get_items at hu
    by_cases hst : (fetch (first_url board_id item_type)).status ≠ 200
    · have hr : (getItemsLoop fetch board_id (first_url board_id item_type) (f + 1)).1 =
          [first_url board_id item_type] := by simp [getItemsLoop, hst]
      rw [hr] at hu
      simp at hu
    · cases hc : (fetch (first_url board_id item_type)).cursor with
      | none =>
        have hr : (getItemsLoop fetch board_id (first_url board_id item_type) (f + 1)).1 =
            [first_url board_id item_type] := by simp [getItemsLoop, hst, hc]
        rw [hr] at hu
        simp at hu
      | some c =>
        have hr : (getItemsLoop fetch board_id (first_url board_id item_type) (f + 1)).1 =
            first_url board_id item_type ::
              (getItemsLoop fetch board_id (next_url board_id c) f).1 := by
          simp [getItemsLoop, hst, hc]
        rw [hr] at hu
        exact getItemsLoop_tail_cursor fetch board_id f c u hu
  · intro h200 hcnone
    unfold get_items
    have hst : ¬((fetch (first_url board_id item_type)).status ≠ 200) := by omega
    simp [getItemsLoop, hst, hcnone]

/-- Claim C3 witness: A single-page board: with a fetch answering 200 and
no cursor, the enumeration issues exactly the typed first-page request
and returns that page. -/
theorem C3_pagination_witness :
    0 < 1 ∧
    (get_items (fun _ => ⟨200, [], none⟩) "b1".data "image".data 1).1.head? =
      some (first_url "b1".data "image".data) :=
  ⟨Nat.one_pos,
    (C3_pagination (fun _ => ⟨200, [], none⟩) "b1".data "image".data 1
      Nat.one_pos).2.2.1⟩

/-- Claim C3 counterexample: The follow-up request does not keep the
item-type filter: the first-page URL contains `type=`, but the
cursor follow-up URL (for board `b1` and cursor `cur1`) contains no
`type=` at all. -/
theorem C3_counterexample :
    containsSub "type=".data (first_url "b1".data "image".data) = true ∧
    containsSub "type=".data (next_url "b1".data "cur1".data) = false := by
  decide

/-- Source `miro-svg-dl.py` lines 102-105 and 227: the scan loop over the item
types.  There is no try/except around `get_items`, so the
`RuntimeError` of line 37 propagates out of `main`: the pair's second
component records the uncaught error, and the first component the
per-type item counts of the types whose scans completed before it. -/
def scanRun (fetch : Str → PageResp) (board_id : Str) (fuel : Nat) :
    List Str → List (Str × Nat) × Option Nat
  | [] => ([], none)
  | t :: ts =>
    match (get_items fetch board_id t fuel).2 with
    | Except.error e => ([], some e)
    | Except.ok items =>
      let rest := scanRun fetch board_id fuel ts
      ((t, items.length) :: rest.1, rest.2)

/-- Test fixture: a server on which the `image` listing answers 403
while every other request answers 200 with one item and no cursor. -/
def fetch403 : Str → PageResp := fun url =>
  if url = first_url "b1".data "image".data then ⟨403, [], none⟩
  else ⟨200, [⟨"i1".data, [] ⟩], none⟩

/-- Claim C1 counterexample: A 403 on the `image` listing does not leave
the remaining item types scanned: the `document` listing would succeed
on its own, yet the run aborts with the uncaught error and completes
zero type scans. -/
theorem C1_counterexample :
    (get_items fetch403 "b1".data "document".data 1).2 =
      Except.ok [⟨"i1".data, []⟩] ∧
    scanRun fetch403 "b1".data 1
        (scanned_types ⟨"b1".data, "tok".data, "svgs".data, false, false⟩) =
      ([], some 403) := by
  exact ⟨rfl, rfl⟩

/-- Claim C1 (amended): A non-200 on a paginated listing call raises an
error that `main` never catches: the run records the scans completed
before the failing item type and then terminates with that error —
the failing type and every later type are not scanned. -/
theorem C1_listing_error_aborts (fetch : Str → PageResp) (board_id : Str)
    (fuel : Nat) (e : Nat) :
    ∀ (pre post : List Str) (t : Str),
      (∀ t' ∈ pre, ∃ items, (get_items fetch board_id t' fuel).2 = Except.ok items) →
      (get_items fetch board_id t fuel).2 = Except.error e →
      (scanRun fetch board_id fuel (pre ++ t :: post)).2 = some e ∧
      (scanRun fetch board_id fuel (pre ++ t :: post)).1.map Prod.fst = pre := by
  intro pre
  induction pre with
  | nil =>
    intro post t _ herr
    rw [List.nil_append]
    constructor
    · simp [scanRun, herr]
    · simp [scanRun, herr]
  | cons p ps ih =>
    intro post t hok herr
    obtain ⟨items, hp⟩ := hok p (List.mem_cons_self _ _)
    have hrest := ih post t (fun t' ht' => hok t' (List.mem_cons_of_mem _ ht')) herr
    rw [List.cons_append]
    constructor
    · simp only [scanRun, hp]
      exact hrest.1
    · simp only [scanRun, hp, List.map_cons]
      rw [hrest.2]

/-- Claim C1 witness: The abort theorem instantiated on `fetch403`: the
`image` listing fails first, nothing precedes it, and the run ends with
error 403 having completed no type scan. -/
theorem C1_listing_error_aborts_witness :
    (∀ t' ∈ ([] : List Str), ∃ items,
        (get_items fetch403 "b1".data t' 1).2 = Except.ok items) ∧
    (get_items fetch403 "b1".data "image".data 1).2 = Except.error 403 ∧
    (scanRun fetch403 "b1".data 1
      ([] ++ "image".data :: [ "document".data, "shape".data, "sticky_note".data,
        "text".data, "frame".data, "app_card".data ])).2 = some 403 := by
  have h := C1_listing_error_aborts fetch403 "b1".data 1 403 []
    [ "document".data, "shape".data, "sticky_note".data,
      "text".data, "frame".data, "app_card".data ]
    "image".data (fun t' ht' => absurd ht' (List.not_mem_nil t')) rfl
  exact ⟨fun t' ht' => absurd ht' (List.not_mem_nil t'), rfl, h.1⟩

/-! ### Claim C10: `--quiet` changes only the log lines -/

/-- An HTTP request issued while processing one item. -/
inductive HttpReq
  | get (url : Str)
  | head (url : Str)
deriving DecidableEq

/-- The log lines of `main`'s per-item portion, one constructor per
`print` call, carrying the data interpolated into the message. -/
inductive LogEvent
  | foundItem (itemType itemId src : Str)
  | trying (url : Str)
  | statusLine (status : Nat) (contentType : Str)
  | foundSvg (url : Str)
  | contentPreview (preview : Str)
  | probeError (url : Str)
  | noSvgFound
  | originalName (name : Str)
  | usingItemId
  | conflictResolved (name : Str)
  | savedFile (dest : Str)
  | downloadFailed (url : Str)

/-- Source `miro-svg-dl.py` line 160: the first 100 characters of the body
with newlines replaced by spaces. -/
def previewOf (body : Str) : Str :=
  (body.take 100).map (fun c => if c = '\n' then ' ' else c)

/-- What the probe loop produces: `successful_url`, the GET requests
issued, and the log lines printed. -/
structure ProbeOut where
  successful : Option Str
  requests : List Str
  logs : List LogEvent

/-- Source `miro-svg-dl.py` lines 128-166, with its logging: `Trying` before
each GET; on an exception an error line and the next candidate; on a
response a status line, then either the success line and break, or (for
a non-matching 200) a content preview. -/
def probeTrace (quiet : Bool) (respond : Str → Option ProbeResp) :
    List Str → ProbeOut
  | [] => ⟨none, [], []⟩
  | u :: us =>
    let tlg : List LogEvent := if quiet then [] else [.trying u]
    match respond u with
    | none =>
      let rest := probeTrace quiet respond us
      ⟨rest.successful, u :: rest.requests,
        tlg ++ (if quiet then [] else [.probeError u]) ++ rest.logs⟩
    | some r =>
      let slg : List LogEvent :=
        if quiet then [] else [.statusLine r.status (content_type_of r.contentType)]
      if classifyMatched r.status r.contentType r.body then
        ⟨some u, [u], tlg ++ slg ++ (if quiet then [] else [.foundSvg u])⟩
      else
        let plg : List LogEvent :=
          if !quiet && r.status == 200 then [.contentPreview (previewOf r.body)] else []
        let rest := probeTrace quiet respond us
        ⟨rest.successful, u :: rest.requests, tlg ++ slg ++ plg ++ rest.logs⟩

/-- Python `s.rsplit('.svg', 1)` splits at the last occurrence of
`.svg`; this computes that occurrence's index. -/
def lastIndexOfSvg : Str → Option Nat
  | [] => none
  | c :: cs =>
    match lastIndexOfSvg cs with
    | some i => some (i + 1)
    | none => if ".svg".data.isPrefixOf (c :: cs) then some 0 else none

/-- Source `miro-svg-dl.py` line 204: `safe_filename.rsplit('.svg', 1)[0]` —
the part before the last occurrence of `.svg`, or the whole string when
it never occurs. -/
def rsplitSvgBase (s : Str) : Str :=
  match lastIndexOfSvg s with
  | some i => s.take i
  | none => s

/-- The remote world one run talks to: probe GET responses, HEAD
responses, and the download GET (`some` body on a 2xx, `none` for the
`raise_for_status`/exception path of lines 53-54). -/
structure Env where
  respond : Str → Option ProbeResp
  headResult : Str → Option HeadResult
  downloadResult : Str → Option Str

/-- Everything observable from processing one item. -/
structure ItemOut where
  requests : List HttpReq
  written : Option (Str × Str)
  outcome : ItemOutcome
  logs : List LogEvent

/-- Source `miro-svg-dl.py` lines 107-226: process one item — probe the
candidate URLs, and on a match HEAD for the original filename, choose
and collision-resolve the destination, then download and write. -/
def processItem (quiet : Bool) (env : Env) (itemType : Str)
    (existing : List Str) (it : Item) : ItemOut :=
  let lg0 : List LogEvent :=
    if quiet then [] else [.foundItem itemType it.id it.imageUrl]
  let pr := probeTrace quiet env.respond (download_urls_to_try it.imageUrl)
  match pr.successful with
  | none =>
    ⟨pr.requests.map HttpReq.get, none, .skipped,
      lg0 ++ pr.logs ++ (if quiet then [] else [.noSvgFound])⟩
  | some okUrl =>
    let ofn := get_filename_from_headers (env.headResult okUrl)
    let lg1 : List LogEvent :=
      match ofn with
      | some n => if !quiet && !n.isEmpty then [.originalName n] else []
      | none => []
    let fchoice := chooseFilename ofn it.id
    let lg2 : List LogEvent := if !fchoice.2 && !quiet then [.usingItemId] else []
    let basePart := if fchoice.2 then rsplitSvgBase fchoice.1 else it.id
    let dest := resolveDest existing fchoice.1 basePart
    let lg3 : List LogEvent :=
      if !quiet && !(dest == fchoice.1) then [.conflictResolved dest] else []
    let reqs := pr.requests.map HttpReq.get ++ [HttpReq.head okUrl, HttpReq.get okUrl]
    match env.downloadResult okUrl with
    | some contents =>
      ⟨reqs, some (dest, contents), .saved fchoice.2,
        lg0 ++ pr.logs ++ lg1 ++ lg2 ++ lg3 ++
          (if quiet then [] else [.savedFile dest])⟩
    | none =>
      ⟨reqs, none, .downloadFailed,
        lg0 ++ pr.logs ++ lg1 ++ lg2 ++ lg3 ++ [.downloadFailed okUrl]⟩

/-- Everything observable from one item-type's item loop. -/
structure RunOut where
  requests : List HttpReq
  written : List (Str × Str)
  outcomes : List ItemOutcome
  logs : List LogEvent

/-- Source `miro-svg-dl.py` lines 105-226: the item loop, threading the output
directory's listing (consulted by `dest.exists()` and extended by each
successful write). -/
def processItems (quiet : Bool) (env : Env) (itemType : Str) :
    List Item → List Str → RunOut
  | [], _ => ⟨[], [], [], []⟩
  | it :: its, existing =>
    let o := processItem quiet env itemType existing it
    let existing' :=
      match o.written with
      | some w => w.1 :: existing
      | none => existing
    let rest := processItems quiet env itemType its existing'
    ⟨o.requests ++ rest.requests,
      (match o.written with | some w => w :: rest.written | none => rest.written),
      o.outcome :: rest.outcomes,
      o.logs ++ rest.logs⟩

theorem probeTrace_successful_eq (quiet : Bool) (respond : Str → Option ProbeResp) :
    ∀ us : List Str,
      (probeTrace quiet respond us).successful = probeFirstMatch respond us := by
  intro us
  induction us with
  | nil => rfl
  | cons u ut ih =>
    cases hr : respond u with
    | none =>
      have h1 : (probeTrace quiet respond (u :: ut)).successful =
          (probeTrace quiet respond ut).successful := by
        simp [probeTrace, hr]
      have h2 : probeFirstMatch respond (u :: ut) = probeFirstMatch respond ut := by
        simp [probeFirstMatch, respMatched, hr]
      rw [h1, h2, ih]
    | some r =>
      by_cases hm : classifyMatched r.status r.contentType r.body = true
      · have h1 : (probeTrace quiet respond (u :: ut)).successful = some u := by
          simp [probeTrace, hr, hm]
        have h2 : probeFirstMatch respond (u :: ut) = some u := by
          simp [probeFirstMatch, respMatched, hr, hm]
        rw [h1, h2]
      · have h1 : (probeTrace quiet respond (u :: ut)).successful =
            (probeTrace quiet respond ut).successful := by
          simp [probeTrace, hr, hm]
        have h2 : probeFirstMatch respond (u :: ut) = probeFirstMatch respond ut := by
          simp [probeFirstMatch, respMatched, hr, hm]
        rw [h1, h2, ih]

theorem probeTrace_requests_quiet (respond : Str → Option ProbeResp) (q₁ q₂ : Bool) :
    ∀ us : List Str,
      (probeTrace q₁ respond us).requests = (probeTrace q₂ respond us).requests := by
  intro us
  induction us with
  | nil => rfl
  | cons u ut ih =>
    cases hr : respond u with
    | none =>
      have h1 : (probeTrace q₁ respond (u :: ut)).requests =
          u :: (probeTrace q₁ respond ut).requests := by simp [probeTrace, hr]
      have h2 : (probeTrace q₂ respond (u :: ut)).requests =
          u :: (probeTrace q₂ respond ut).requests := by simp [probeTrace, hr]
      rw [h1, h2, ih]
    | some r =>
      by_cases hm : classifyMatched r.status r.contentType r.body = true
      · have h1 : (probeTrace q₁ respond (u :: ut)).requests = [u] := by
          simp [probeTrace, hr, hm]
        have h2 : (probeTrace q₂ respond (u :: ut)).requests = [u] := by
          simp [probeTrace, hr, hm]
        rw [h1, h2]
      · have h1 : (probeTrace q₁ respond (u :: ut)).requests =
            u :: (probeTrace q₁ respond ut).requests := by simp [probeTrace, hr, hm]
        have h2 : (probeTrace q₂ respond (u :: ut)).requests =
            u :: (probeTrace q₂ respond ut).requests := by simp [probeTrace, hr, hm]
        rw [h1, h2, ih]

theorem processItem_quiet_indep (env : Env) (itemType : Str) (existing : List Str)
    (it : Item) (q₁ q₂ : Bool) :
    (processItem q₁ env itemType existing it).requests =
      (processItem q₂ env itemType existing it).requests ∧
    (processItem q₁ env itemType existing it).written =
      (processItem q₂ env itemType existing it).written ∧
    (processItem q₁ env itemType existing it).outcome =
      (processItem q₂ env itemType existing it).outcome := by
  have hsucc : (probeTrace q₁ env.respond (download_urls_to_try it.imageUrl)).successful =
      (probeTrace q₂ env.respond (download_urls_to_try it.imageUrl)).successful := by
    rw [probeTrace_successful_eq, probeTrace_successful_eq]
  have hreq := probeTrace_requests_quiet env.respond q₁ q₂
    (download_urls_to_try it.imageUrl)
  cases hs : (probeTrace q₁ env.respond (download_urls_to_try it.imageUrl)).successful with
  | none =>
    have hs2 : (probeTrace q₂ env.respond (download_urls_to_try it.imageUrl)).successful =
        none := by rw [← hsucc]; exact hs
    simp only [processItem, hs, hs2, hreq]
    exact ⟨trivial, trivial, trivial⟩
  | some okUrl =>
    have hs2 : (probeTrace q₂ env.respond (download_urls_to_try it.imageUrl)).successful =
        some okUrl := by rw [← hsucc]; exact hs
    cases hd : env.downloadResult okUrl with
    | none =>
      simp only [processItem, hs, hs2, hreq, hd]
      exact ⟨trivial, trivial, trivial⟩
    | some contents =>
      simp only [processItem, hs, hs2, hreq, hd]
      exact ⟨trivial, trivial, trivial⟩

/-- Claim C10: `--quiet` is observationally pure: over any remote
environment, two item loops differing only in the quiet flag issue
the same HTTP requests in the same order, write the same files (same
destinations, same bytes), produce the same per-item outcomes, and end
with the same summary counters; only the log lines may differ. -/
theorem C10_quiet_observational (env : Env) (itemType : Str) (q₁ q₂ : Bool) :
    ∀ (items : List Item) (existing : List Str),
      (processItems q₁ env itemType items existing).requests =
        (processItems q₂ env itemType items existing).requests ∧
      (processItems q₁ env itemType items existing).written =
        (processItems q₂ env itemType items existing).written ∧
      (processItems q₁ env itemType items existing).outcomes =
        (processItems q₂ env itemType items existing).outcomes ∧
      runCounters (processItems q₁ env itemType items existing).outcomes =
        runCounters (processItems q₂ env itemType items existing).outcomes := by
  intro items
  induction items with
  | nil => intro existing; exact ⟨rfl, rfl, rfl, rfl⟩
  | cons it its ih =>
    intro existing
    obtain ⟨hpr, hpw, hpo⟩ := processItem_quiet_indep env itemType existing it q₁ q₂
    obtain ⟨ihr, ihw, iho, _⟩ := ih
      (match (processItem q₂ env itemType existing it).written with
        | some w => w.1 :: existing
        | none => existing)
    refine ⟨?_, ?_, ?_, ?_⟩
    · simp only [processItems]
      rw [hpr, hpw, ihr]
    · simp only [processItems]
      rw [hpw, ihw]
    · simp only [processItems]
      rw [hpo, hpw, iho]
    · simp only [processItems]
      rw [hpo, hpw, iho]

end MiroSvgDl
